import Mathlib

/-!
Verification of `src/utils/lodashReplacements.ts`.

The module is a compatibility shim over a subset of lodash: type
predicates, array/object helpers, an object path-lookup `get`, an
emptiness check `isEmpty`, and wrappers `debounce` / `throttle` over the
micro-libraries `just-debounce-it` and `just-throttle`.

JavaScript runtime values are embedded as the inductive `JSValue`; each
exported helper of the module is translated as a Lean function of the same
name (suffixed where the name clashes).  The sources of the two timing
micro-libraries are not part of this repository, so the debounce engine is
modelled from the specification's contract for the rate-limited invoker
(see `dstepCall` below); the wrapper code that adapts the lodash option
shape is translated from the source.
-/

set_option autoImplicit false

namespace Lodash

/-- Embedding of the JavaScript runtime values the module manipulates.
`obj` carries the own enumerable (string-keyed) data properties; `jsMap`
and `jsSet` are `Map` / `Set` instances, whose contents live in internal
slots rather than in enumerable own properties. -/
inductive JSValue where
  | undefined
  | null
  | num (n : Int)
  | str (s : String)
  | bool (b : Bool)
  | obj (fields : List (String × JSValue))
  | arr (elems : List JSValue)
  | jsMap (entries : List (JSValue × JSValue))
  | jsSet (elems : List JSValue)

/-- JavaScript loose check `value == null`, true exactly for `null` and
`undefined`. -/
def isNullish : JSValue → Bool
  | .null => true
  | .undefined => true
  | _ => false

/-- `typeof value` for the embedded values. -/
def typeofV : JSValue → String
  | .undefined => "undefined"
  | .null => "object"
  | .num _ => "number"
  | .str _ => "string"
  | .bool _ => "boolean"
  | .obj _ => "object"
  | .arr _ => "object"
  | .jsMap _ => "object"
  | .jsSet _ => "object"

/-- `Array.isArray value`. -/
def isArrayV : JSValue → Bool
  | .arr _ => true
  | _ => false

/-- The `length` of an array or string (`value.length` on the branch of
`isEmpty` that reads it). -/
def lengthV : JSValue → Nat
  | .arr elems => elems.length
  | .str s => s.length
  | _ => 0

/-- `Object.keys value`: the own enumerable string keys.  For a plain
object these are its field names (first occurrence); for an array its
index strings; `Map` and `Set` instances keep their contents in internal
slots and have no own enumerable keys. -/
def ownKeys : JSValue → List String
  | .obj fields => (fields.map Prod.fst).eraseDups
  | .arr elems => (List.range elems.length).map toString
  | _ => []

/-- Property read `base[key]` on a non-nullish base: field lookup on
objects, index / `length` on arrays and strings, `undefined` everywhere
else (in particular on `Map` / `Set`, whose contents are not reachable as
data properties). -/
def getProp : JSValue → String → JSValue
  | .obj fields, k =>
    match fields.find? (fun kv => kv.1 == k) with
    | some kv => kv.2
    | none => .undefined
  | .arr elems, k =>
    (match k.toNat? with
     | some i => (elems.get? i).getD .undefined
     | none => if k == "length" then .num elems.length else .undefined)
  | .str s, k =>
    (match k.toNat? with
     | some i => (s.data.get? i).elim .undefined (fun c => .str (String.mk [c]))
     | none => if k == "length" then .num s.length else .undefined)
  | _, _ => .undefined

/-- `isEmpty` from the source:
`value == null` → true; arrays and strings → `length === 0`;
other `typeof 'object'` values → `Object.keys(value).length === 0`;
anything else → false. -/
def isEmpty (v : JSValue) : Bool :=
  if isNullish v then true
  else if isArrayV v || typeofV v == "string" then lengthV v == 0
  else if typeofV v == "object" then (ownKeys v).length == 0
  else false

/-- The `string | string[]` path argument of `get`. -/
inductive JSPath where
  | ofString (s : String)
  | ofList (l : List String)

/-- `Array.isArray(path) ? path : path.split('.')`; the split is done on
the character list so that it computes by kernel reduction. -/
def pathKeys : JSPath → List String
  | .ofString s => (s.data.splitOn '.').map String.mk
  | .ofList l => l

/-- The loop of `get`: walk the keys, returning the default as soon as the
intermediate result is nullish, and apply the final `?? defaultValue`. -/
def getLoop (dflt : JSValue) : List String → JSValue → JSValue
  | [], r => if isNullish r then dflt else r
  | k :: ks, r => if isNullish r then dflt else getLoop dflt ks (getProp r k)

/-- `get(obj, path, defaultValue)` from the source. -/
def get (o : JSValue) (path : JSPath) (dflt : JSValue := .undefined) : JSValue :=
  getLoop dflt (pathKeys path) o

/-- Pure resolution of a key path, ignoring the default: what the chain of
property reads yields, with nullish intermediates collapsing to
`undefined` (in JavaScript the read would throw there; `get` guards it). -/
def resolvePath : JSValue → List String → JSValue
  | v, [] => v
  | v, k :: ks => if isNullish v then .undefined else resolvePath (getProp v k) ks

/-- Property read that records the JavaScript `TypeError` raised by
`base[key]` when the base is `null` or `undefined`. -/
def accessE : JSValue → String → Except String JSValue
  | .null, _ => .error "TypeError"
  | .undefined, _ => .error "TypeError"
  | v, k => .ok (getProp v k)

/-- The loop of `get` with the fallible property read made explicit. -/
def getLoopE (dflt : JSValue) : List String → JSValue → Except String JSValue
  | [], r => .ok (if isNullish r then dflt else r)
  | k :: ks, r =>
    if isNullish r then .ok dflt
    else
      match accessE r k with
      | .ok v => getLoopE dflt ks v
      | .error e => .error e

/-- `get` with the fallible property read made explicit: errors would
surface here if the source's nullish guard were missing. -/
def getE (o : JSValue) (path : JSPath) (dflt : JSValue := .undefined) :
    Except String JSValue :=
  getLoopE dflt (pathKeys path) o

/-- `inRange(value, start, end?)` from the source: when `end` is
undefined the range is `[0, start)`; the test is
`value >= Math.min(start, end) && value < Math.max(start, end)`. -/
def inRange (value start : Int) (stop : Option Int) : Bool :=
  let s := match stop with | none => (0 : Int) | some _ => start
  let e := match stop with | none => start | some x => x
  decide (min s e ≤ value) && decide (value < max s e)

/-- `array.slice(0, finish)` for an integer `finish`: a negative bound
counts from the end, and the result is the prefix up to the clamped
bound. -/
def jsSliceTo {α : Type} (a : List α) (finish : Int) : List α :=
  let len : Int := a.length
  let e := if finish < 0 then max (len + finish) 0 else min finish len
  a.take e.toNat

/-- `dropRight(array, n = 1)` from the source:
`n >= array.length ? [] : array.slice(0, -n)`. -/
def dropRight {α : Type} (a : List α) (n : Nat := 1) : List α :=
  if (a.length : Int) ≤ (n : Int) then [] else jsSliceTo a (-(n : Int))

/-- `times(n, iteratee)` from the source:
`Array.from({length: n}, (_, i) => iteratee(i))`. -/
def times {α : Type} (n : Nat) (iteratee : Nat → α) : List α :=
  (List.range n).map iteratee

/-- `min(array)` from the source:
`array.length ? Math.min(...array) : undefined`. -/
def minJS (a : List Int) : Option Int :=
  match a with
  | [] => none
  | x :: xs => some (xs.foldl min x)

/-- `pickBy(obj, predicate)` from the source: keep the own enumerable
entries whose value/key satisfy the predicate. -/
def pickBy (fields : List (String × JSValue))
    (predicate : JSValue → String → Bool) : List (String × JSValue) :=
  fields.filter (fun kv => predicate kv.2 kv.1)

/-- `first(array)` from the source: `array?.[0]`. -/
def first {α : Type} (a : Option (List α)) : Option α :=
  match a with
  | none => none
  | some l => l.get? 0

/-! ### The rate-limited invoker (debounce) and the wrappers

The engines `just-debounce-it` and `just-throttle` are dependencies whose
sources are not part of this repository; only the adapting wrappers are.
The debounce engine below is modelled from the specification's contract
for the rate-limited invoker in debounce mode; the wrappers `debounce`
and `throttle` are translated from the source. -/

/-- The lodash-shaped `{leading?, trailing?}` options object; `none` is an
absent (undefined) field. -/
structure DebounceOptions where
  leading : Option Bool
  trailing : Option Bool

/-- `const immediate = options.leading === true` from the source wrapper. -/
def debounceImmediate (o : DebounceOptions) : Bool :=
  o.leading == some true

/-- State of one debounce wrapper instance: the pending timer, as its
firing deadline together with the buffered arguments of the most recent
call, or `none` when no timer is pending. -/
def DTimer (α : Type) : Type := Option (Nat × α)

/-- Modelled from the spec: the timer of the debounce engine elapsing
before time `t`.  If a timer is pending with deadline `d ≤ t` it fires:
when `trailing` is set the buffered call is invoked at `d`, and the timer
is cleared. -/
def fireIfElapsed {α : Type} (trailing : Bool) (s : DTimer α) (t : Nat) :
    DTimer α × List (Nat × α) :=
  match s with
  | some (d, b) =>
    if d ≤ t then (none, if trailing then [(d, b)] else []) else (some (d, b), [])
  | none => (none, [])

/-- Modelled from the spec: one call of the debounced wrapper `g` at time
`t` with arguments `a` (the `just-debounce-it` engine is not in this
repository).  Any timer whose deadline has passed fires first; then, if
`leading` is set and no timer is pending, the function is invoked
immediately with this call's arguments; in every case a fresh timer of
length `wait` is started with these arguments buffered. -/
def dstepCall {α : Type} (wait : Nat) (leading trailing : Bool)
    (s : DTimer α) (t : Nat) (a : α) : DTimer α × List (Nat × α) :=
  let fired := fireIfElapsed trailing s t
  let callNow := leading && fired.1.isNone
  (some (t + wait, a), fired.2 ++ (if callNow then [(t, a)] else []))

/-- Modelled from the spec: after the last call, a still-pending timer
eventually elapses; with `trailing` set the buffered call is invoked at
its deadline. -/
def dfinish {α : Type} (trailing : Bool) (s : DTimer α) : List (Nat × α) :=
  match s with
  | some (d, b) => if trailing then [(d, b)] else []
  | none => []

/-- Run the debounce engine over a time-ordered list of calls `(t, a)`
from a given timer state, returning the final state and the invocations
of the wrapped function (as time/argument pairs, in order). -/
def drunFrom {α : Type} (wait : Nat) (leading trailing : Bool) :
    DTimer α → List (Nat × α) → DTimer α × List (Nat × α)
  | s, [] => (s, [])
  | s, (t, a) :: rest =>
    let step := dstepCall wait leading trailing s t a
    let next := drunFrom wait leading trailing step.1 rest
    (next.1, step.2 ++ next.2)

/-- The invocations the debounce engine performs for a time-ordered list
of calls starting from a fresh wrapper, including the final trailing
invocation once the last timer elapses. -/
def debounceRun {α : Type} (wait : Nat) (leading trailing : Bool)
    (calls : List (Nat × α)) : List (Nat × α) :=
  let r := drunFrom wait leading trailing none calls
  r.2 ++ dfinish trailing r.1

/-- The `debounce(func, wait, options)` wrapper from the source: it passes
`immediate = options.leading === true` to the engine and discards
`options.trailing` (the engine's trailing behaviour is always on). -/
def debounce {α : Type} (wait : Nat) (options : DebounceOptions)
    (calls : List (Nat × α)) : List (Nat × α) :=
  debounceRun wait (debounceImmediate options) true calls

/-- A burst: calls at strictly increasing times, consecutive calls less
than `wait` apart. -/
def isBurst {α : Type} (wait : Nat) : List (Nat × α) → Bool
  | [] => true
  | [_] => true
  | (t1, _) :: (t2, a2) :: rest =>
    (t1 < t2 && t2 < t1 + wait) && isBurst wait ((t2, a2) :: rest)

/-- The normalized configuration forwarded to the underlying throttle
engine. -/
structure ThrottleConfig where
  leading : Bool
  trailing : Bool
deriving Repr, DecidableEq

/-- The `throttle(func, wait, options)` wrapper from the source, embedded
as the configuration it forwards to `just-throttle`:
`{leading: options.leading ?? true, trailing: options.trailing ?? true}`. -/
def throttle (wait : Nat) (options : DebounceOptions) : ThrottleConfig :=
  { leading := options.leading.getD true
    trailing := options.trailing.getD true }

/-! ### Helper lemmas -/

theorem isNullish_undefined : isNullish .undefined = true := rfl

theorem getLoop_eq_resolve (keys : List String) :
    ∀ (dflt r : JSValue),
      getLoop dflt keys r =
        if isNullish (resolvePath r keys) then dflt else resolvePath r keys := by
  induction keys with
  | nil => intro dflt r; simp [getLoop, resolvePath]
  | cons k ks ih =>
    intro dflt r
    by_cases h : isNullish r = true
    · simp [getLoop, resolvePath, h, isNullish_undefined]
    · simp only [Bool.not_eq_true] at h
      simp [getLoop, resolvePath, h, ih]

theorem resolvePath_nullish {v : JSValue} (keys : List String)
    (h : isNullish v = true) : isNullish (resolvePath v keys) = true := by
  cases keys with
  | nil => simpa [resolvePath]
  | cons k ks => simp [resolvePath, h, isNullish_undefined]

theorem resolvePath_append (l1 l2 : List String) :
    ∀ v : JSValue, resolvePath v (l1 ++ l2) = resolvePath (resolvePath v l1) l2 := by
  induction l1 with
  | nil => intro v; simp [resolvePath]
  | cons k ks ih =>
    intro v
    by_cases h : isNullish v = true
    · cases l2 <;> simp [resolvePath, h, isNullish_undefined]
    · simp only [Bool.not_eq_true] at h
      simp [resolvePath, h, ih]

theorem accessE_of_not_nullish {r : JSValue} (k : String)
    (h : isNullish r = false) : accessE r k = .ok (getProp r k) := by
  cases r <;> simp_all [isNullish, accessE]

theorem getLoopE_ok (keys : List String) :
    ∀ (dflt r : JSValue), getLoopE dflt keys r = .ok (getLoop dflt keys r) := by
  induction keys with
  | nil => intro dflt r; simp [getLoopE, getLoop]
  | cons k ks ih =>
    intro dflt r
    by_cases h : isNullish r = true
    · simp [getLoopE, getLoop, h]
    · simp only [Bool.not_eq_true] at h
      simp [getLoopE, getLoop, h, accessE_of_not_nullish, ih]

/-! ### Claims -/

/-- Claim C3: `throttle` forwards `leading`/`trailing` to the underlying
rate limiter with `?? true` defaulting: an absent option becomes `true`,
an explicitly supplied boolean is forwarded unchanged. -/
theorem c3_throttle_option_defaults (wait : Nat) (o : DebounceOptions) :
    (o.leading = none → (throttle wait o).leading = true) ∧
    (∀ b, o.leading = some b → (throttle wait o).leading = b) ∧
    (o.trailing = none → (throttle wait o).trailing = true) ∧
    (∀ b, o.trailing = some b → (throttle wait o).trailing = b) := by
  refine ⟨fun h => ?_, fun b h => ?_, fun h => ?_, fun b h => ?_⟩ <;>
    simp [throttle, h]

/-- Witness for C3 at a concrete option object with `leading` absent and
`trailing` explicitly `false`. -/
theorem c3_throttle_option_defaults_witness :
    (throttle 5 ⟨none, some false⟩).leading = true ∧
    (throttle 5 ⟨none, some false⟩).trailing = false :=
  ⟨(c3_throttle_option_defaults 5 ⟨none, some false⟩).1 rfl,
   (c3_throttle_option_defaults 5 ⟨none, some false⟩).2.2.2 false rfl⟩

/-- Claim C5: `isEmpty` is true on the empty array, the empty object, the
empty string, `null` and `undefined`, and false on every non-empty array,
every object with at least one own enumerable key, and every non-empty
string. -/
theorem c5_isEmpty_characterization :
    isEmpty (.arr []) = true ∧ isEmpty (.obj []) = true ∧
    isEmpty (.str "") = true ∧ isEmpty .null = true ∧
    isEmpty .undefined = true ∧
    (∀ (x : JSValue) (xs : List JSValue), isEmpty (.arr (x :: xs)) = false) ∧
    (∀ fields, ownKeys (.obj fields) ≠ [] → isEmpty (.obj fields) = false) ∧
    (∀ s : String, s ≠ "" → isEmpty (.str s) = false) := by
  refine ⟨rfl, rfl, rfl, rfl, rfl, fun x xs => ?_, fun fields h => ?_, fun s h => ?_⟩
  · simp [isEmpty, isNullish, isArrayV, lengthV]
  · simp only [isEmpty, isNullish, isArrayV, typeofV, lengthV]
    simpa [List.length_eq_zero] using h
  · have hlen : s.length ≠ 0 := by
      cases s with
      | mk data =>
        simp only [String.length]
        intro hd
        exact h (by simp_all [List.length_eq_zero])
    simp only [isEmpty, isNullish, isArrayV, typeofV, lengthV]
    simpa using hlen

/-- Witness for C5 at a one-field object and a one-character string. -/
theorem c5_isEmpty_characterization_witness :
    isEmpty (.obj [("a", .num 1)]) = false ∧ isEmpty (.str "x") = false :=
  ⟨c5_isEmpty_characterization.2.2.2.2.2.2.1 [("a", .num 1)] (by decide),
   c5_isEmpty_characterization.2.2.2.2.2.2.2 "x" (by decide)⟩

/-- Claim C6: on every non-null, non-array, non-string value of object
type, `isEmpty` decides emptiness solely from the own enumerable keys;
consequently a non-empty `Map` or `Set`, whose contents live in internal
slots, is classified as empty. -/
theorem c6_isEmpty_keys_only :
    (∀ v : JSValue, isNullish v = false → isArrayV v = false →
       typeofV v ≠ "string" → typeofV v = "object" →
       isEmpty v = ((ownKeys v).length == 0)) ∧
    (∀ entries : List (JSValue × JSValue), entries ≠ [] →
       isEmpty (.jsMap entries) = true) ∧
    (∀ elems : List JSValue, elems ≠ [] → isEmpty (.jsSet elems) = true) := by
  refine ⟨fun v h1 h2 h3 h4 => ?_, fun entries _ => ?_, fun elems _ => ?_⟩
  · simp [isEmpty, h1, h2, h3, h4]
  · simp [isEmpty, isNullish, isArrayV, typeofV, ownKeys]
  · simp [isEmpty, isNullish, isArrayV, typeofV, ownKeys]

/-- Witness for C6: a one-entry map is classified as empty, and on that
map `isEmpty` agrees with key enumeration. -/
theorem c6_isEmpty_keys_only_witness :
    isEmpty (.jsMap [(.num 1, .num 2)]) =
      ((ownKeys (.jsMap [(.num 1, .num 2)])).length == 0) ∧
    isEmpty (.jsMap [(.num 1, .num 2)]) = true :=
  ⟨c6_isEmpty_keys_only.1 (.jsMap [(.num 1, .num 2)]) rfl rfl (by decide) rfl,
   c6_isEmpty_keys_only.2.1 [(.num 1, .num 2)] (by simp)⟩

/-- Claim C8: `dropRight a 0` is the empty list for every list (the slice
bound `-0` is `0`), and `dropRight` with the default `n = 1` removes
exactly the last element. -/
theorem c8_dropRight_zero_and_default {α : Type} :
    (∀ a : List α, dropRight a 0 = []) ∧
    (∀ a : List α, dropRight a 1 = a.dropLast) := by
  constructor
  · intro a
    by_cases h : (a.length : Int) ≤ 0
    · simp [dropRight, h]
    · simp [dropRight, h, jsSliceTo]
  · intro a
    by_cases h : (a.length : Int) ≤ ((1 : Nat) : Int)
    · have hlen : a.length ≤ 1 := by exact_mod_cast h
      match a, hlen with
      | [], _ => simp [dropRight]
      | [x], _ => simp [dropRight]
    · have hlen : 1 < a.length := by
        by_contra hc
        exact h (by exact_mod_cast Nat.le_of_not_lt hc)
      have hm : max ((a.length : Int) + -1) 0 = (a.length : Int) - 1 := by
        rw [max_eq_left (by omega : (0 : Int) ≤ (a.length : Int) + -1)]
        ring
      have ht : ((a.length : Int) - 1).toNat = a.length - 1 := by omega
      simp only [dropRight, if_neg h, jsSliceTo]
      norm_num [hm, ht]
      rw [List.dropLast_eq_take]


/-- Claim C4: `get` never throws (its fallible property reads always
return `ok`), returns the caller-supplied default whenever the
intermediate result is nullish before all keys are consumed, and
satisfies the documented examples. -/
theorem c4_get_default_on_absent :
    (∀ (o : JSValue) (p : JSPath) (dflt : JSValue), ∃ v, getE o p dflt = .ok v) ∧
    (∀ (o : JSValue) (keys : List String) (dflt : JSValue) (i : Nat),
       i < keys.length → isNullish (resolvePath o (keys.take i)) = true →
       get o (.ofList keys) dflt = dflt) ∧
    get (.obj [("a", .obj [("b", .num 1)])]) (.ofString "a.b") = .num 1 ∧
    get (.obj []) (.ofString "a.b") (.num 0) = .num 0 ∧
    get (.obj []) (.ofList ["a", "b"]) = .undefined := by
  refine ⟨fun o p dflt => ⟨getLoop dflt (pathKeys p) o, getLoopE_ok (pathKeys p) dflt o⟩,
    fun o keys dflt i _hi hnull => ?_, rfl, rfl, rfl⟩
  have hfull : isNullish (resolvePath o keys) = true := by
    have hsplit : keys = keys.take i ++ keys.drop i := (List.take_append_drop i keys).symm
    rw [hsplit, resolvePath_append]
    exact resolvePath_nullish _ hnull
  simp [get, pathKeys, getLoop_eq_resolve, hfull]

/-- Witness for C4: the general conjunct applied to a nullish root and a
one-key path. -/
theorem c4_get_default_on_absent_witness :
    get .null (.ofList ["a"]) (.num 5) = .num 5 :=
  c4_get_default_on_absent.2.1 .null ["a"] (.num 5) 0 (by decide) rfl

/-- Claim C9: whenever the full path resolves to `null` (or `undefined`),
`get` substitutes the caller default: the final `?? defaultValue` applies
to a successfully resolved nullish value as well as to an absent
segment. -/
theorem c9_get_default_on_null_result (o : JSValue) (keys : List String)
    (dflt : JSValue) (h : isNullish (resolvePath o keys) = true) :
    get o (.ofList keys) dflt = dflt := by
  simp [get, pathKeys, getLoop_eq_resolve, h]

/-- Witness for C9: a path resolving to the stored value `null` yields
the default instead. -/
theorem c9_get_default_on_null_result_witness :
    get (.obj [("a", .null)]) (.ofList ["a"]) (.num 7) = .num 7 :=
  c9_get_default_on_null_result (.obj [("a", .null)]) ["a"] (.num 7) rfl

/-- Claim C7: the helpers are total over their typed domain. `get` with
its fallible property reads made explicit always returns `ok` (the
nullish guard prevents the only throwing operation), and each remaining
helper returns a value on every input. -/
theorem c7_helpers_total :
    (∀ (o : JSValue) (p : JSPath) (dflt : JSValue), ∃ v, getE o p dflt = .ok v) ∧
    (∀ (value start : Int) (stop : Option Int), ∃ b, inRange value start stop = b) ∧
    (∀ (a : List JSValue) (n : Nat), ∃ r, dropRight a n = r) ∧
    (∀ (n : Nat) (f : Nat → JSValue), ∃ r, times n f = r) ∧
    (∀ a : List Int, ∃ r, minJS a = r) ∧
    (∀ (fields : List (String × JSValue)) (p : JSValue → String → Bool),
       ∃ r, pickBy fields p = r) ∧
    (∀ v : JSValue, ∃ b, isEmpty v = b) :=
  ⟨fun o p dflt => ⟨getLoop dflt (pathKeys p) o, getLoopE_ok (pathKeys p) dflt o⟩,
   fun _ _ _ => ⟨_, rfl⟩, fun _ _ => ⟨_, rfl⟩, fun _ _ => ⟨_, rfl⟩,
   fun _ => ⟨_, rfl⟩, fun _ _ => ⟨_, rfl⟩, fun _ => ⟨_, rfl⟩⟩

/-- Claim C10: with both bounds supplied, `inRange` is invariant under
swapping them: it tests `min(start, end) <= value < max(start, end)`. -/
theorem c10_inRange_swap (value start stop : Int) :
    inRange value start (some stop) = inRange value stop (some start) := by
  simp only [inRange]
  rw [min_comm, max_comm]

theorem dfinish_length_le {α : Type} (trailing : Bool) (s : DTimer α) :
    (dfinish trailing s).length ≤ 1 := by
  match s with
  | none => simp [dfinish]
  | some (d, b) =>
    simp only [dfinish]
    split <;> simp

theorem drunFrom_cons {α : Type} (wait : Nat) (leading trailing : Bool)
    (s : DTimer α) (t : Nat) (a : α) (rest : List (Nat × α)) :
    drunFrom wait leading trailing s ((t, a) :: rest) =
      ((drunFrom wait leading trailing (dstepCall wait leading trailing s t a).1 rest).1,
       (dstepCall wait leading trailing s t a).2 ++
         (drunFrom wait leading trailing (dstepCall wait leading trailing s t a).1 rest).2) :=
  rfl

theorem dstepCall_pending {α : Type} (wait : Nat) (leading trailing : Bool)
    {d t : Nat} (b : α) (a : α) (hd : t < d) :
    dstepCall wait leading trailing (some (d, b)) t a = (some (t + wait, a), []) := by
  simp [dstepCall, fireIfElapsed, Nat.not_le.mpr hd]

theorem dstepCall_none {α : Type} (wait : Nat) (leading trailing : Bool)
    (t : Nat) (a : α) :
    dstepCall wait leading trailing none t a =
      (some (t + wait, a), if leading then [(t, a)] else []) := by
  simp [dstepCall, fireIfElapsed]

theorem drunFrom_burst_no_output {α : Type} (wait : Nat) (leading trailing : Bool) :
    ∀ (calls : List (Nat × α)) (t : Nat) (a : α) (d : Nat) (b : α),
      isBurst wait ((t, a) :: calls) = true → t < d →
      (drunFrom wait leading trailing (some (d, b)) ((t, a) :: calls)).2 = [] := by
  intro calls
  induction calls with
  | nil =>
    intro t a d b _ hd
    rw [drunFrom_cons, dstepCall_pending wait leading trailing b a hd]
    simp [drunFrom]
  | cons c rest ih =>
    intro t a d b hb hd
    obtain ⟨t2, a2⟩ := c
    simp only [isBurst, Bool.and_eq_true, decide_eq_true_eq] at hb
    obtain ⟨⟨_h12, h2w⟩, hrest⟩ := hb
    have htail := ih t2 a2 (t + wait) a hrest h2w
    rw [drunFrom_cons, dstepCall_pending wait leading trailing b a hd]
    simpa using htail

theorem debounceRun_burst_length {α : Type} (wait : Nat) (leading trailing : Bool)
    (calls : List (Nat × α)) (h : isBurst wait calls = true) :
    (debounceRun wait leading trailing calls).length ≤
      (if leading then 1 else 0) + 1 := by
  match calls with
  | [] =>
    simp [debounceRun, drunFrom, dfinish]
  | [(t, a)] =>
    simp only [debounceRun, drunFrom_cons, dstepCall_none, drunFrom, dfinish,
      List.append_nil, List.length_append]
    split <;> split <;> simp
  | (t, a) :: (t2, a2) :: rest2 =>
    simp only [isBurst, Bool.and_eq_true, decide_eq_true_eq] at h
    obtain ⟨⟨_h12, h2w⟩, hrest⟩ := h
    have htail :=
      drunFrom_burst_no_output wait leading trailing rest2 t2 a2 (t + wait) a hrest h2w
    have hr2 : (drunFrom wait leading trailing (none : DTimer α)
        ((t, a) :: (t2, a2) :: rest2)).2 = (if leading then [(t, a)] else []) := by
      rw [drunFrom_cons, dstepCall_none]
      simpa using htail
    have hfin := dfinish_length_le trailing
      (drunFrom wait leading trailing (none : DTimer α) ((t, a) :: (t2, a2) :: rest2)).1
    simp only [debounceRun, List.length_append, hr2]
    have hl : (if leading then [(t, a)] else []).length =
        if leading then 1 else 0 := by
      split <;> simp
    rw [hl]
    exact Nat.add_le_add_left hfin _

/-- Claim C1: over any burst of calls spaced less than `wait` apart, the
debounced wrapper invokes the wrapped function at most once per settling
period under the default (trailing-only) options and at most twice (once
leading, once trailing) when both `leading` and `trailing` are enabled. -/
theorem c1_debounce_burst_bound {α : Type} (wait : Nat) (calls : List (Nat × α))
    (h : isBurst wait calls = true) :
    (debounce wait ⟨none, none⟩ calls).length ≤ 1 ∧
    (debounce wait ⟨some true, some true⟩ calls).length ≤ 2 := by
  constructor
  · have hb := debounceRun_burst_length wait false true calls h
    simpa [debounce, debounceImmediate] using hb
  · have hb := debounceRun_burst_length wait true true calls h
    simpa [debounce, debounceImmediate] using hb

/-- Witness for C1 at the concrete burst of calls at `t = 0, 5, 9` with
`wait = 10`. -/
theorem c1_debounce_burst_bound_witness :
    (debounce 10 ⟨none, none⟩ [(0, (1 : Nat)), (5, 2), (9, 3)]).length ≤ 1 ∧
    (debounce 10 ⟨some true, some true⟩ [(0, (1 : Nat)), (5, 2), (9, 3)]).length ≤ 2 :=
  c1_debounce_burst_bound 10 [(0, 1), (5, 2), (9, 3)] (by decide)

/-- Claim C2: when `options.leading` is `true` the wrapper runs the engine
in immediate mode, and a call arriving while no timer is pending invokes
the function immediately with that call's arguments while still starting
a timer of length `wait` (buffering the arguments) that gates subsequent
calls. -/
theorem c2_leading_immediate {α : Type} (wait t : Nat) (a : α)
    (o : DebounceOptions) (h : o.leading = some true) :
    dstepCall wait (debounceImmediate o) true (none : DTimer α) t a =
      (some (t + wait, a), [(t, a)]) := by
  simp [dstepCall, fireIfElapsed, debounceImmediate, h]

/-- Witness for C2: a first call at time 0 with `wait = 5` fires at once
and schedules the timer for time 5. -/
theorem c2_leading_immediate_witness :
    dstepCall 5 (debounceImmediate ⟨some true, some true⟩) true
      (none : DTimer Nat) 0 3 = (some (5, 3), [(0, 3)]) :=
  c2_leading_immediate 5 0 3 ⟨some true, some true⟩ rfl

end Lodash
